import Mathlib

/-!
Verification of the image-composition core of the flower wallpaper service
(`src/main.rs`).  The pixel pipeline of `modify_image` is embedded shallowly:

* 8-bit channels become `Nat` values (with the Rust saturating `as u8` /
  `as u32` casts made explicit);
* `f32` arithmetic on the small channel values is modelled by exact rational
  arithmetic (`ℚ`), and the single square root in the corner-mask generator by
  `Real.sqrt`;
* an `RgbaImage` becomes a pixel map `Nat → Nat → Rgba` together with its
  dimensions, and each `for y { for x { put_pixel } }` loop becomes a fold
  over the corresponding Rust ranges;
* the resampled source image (`image::imageops::resize`, an external library
  call) and the rasterized glyphs (`rusttype`, external) enter the model as
  parameters, exactly as they feed the compositing code.
-/

/-- One RGBA pixel, 8-bit channels modelled as `Nat`. -/
structure Rgba where
  r : Nat
  g : Nat
  b : Nat
  a : Nat
deriving DecidableEq, Repr

/-- A pixel buffer, as a total map from coordinates to pixels. -/
abbrev PixelMap := Nat → Nat → Rgba

/-- An image: the dimensions of an `RgbaImage` together with its pixels. -/
structure Img where
  width : Nat
  height : Nat
  pix : PixelMap

/-- Constant `MARGIN` of `modify_image`. -/
def MARGIN : Nat := 50

/-- Constant `BOTTOM_EXTRA_MARGIN` of `modify_image`. -/
def BOTTOM_EXTRA_MARGIN : Nat := 150

/-- Constant `CANVAS_WIDTH` of `modify_image`. -/
def CANVAS_WIDTH : Nat := 2560

/-- Constant `CANVAS_HEIGHT` of `modify_image`. -/
def CANVAS_HEIGHT : Nat := 1530

/-- Constant `IMAGE_BOX_WIDTH = CANVAS_WIDTH - 2 * MARGIN`. -/
def IMAGE_BOX_WIDTH : Nat := CANVAS_WIDTH - 2 * MARGIN

/-- Constant `IMAGE_BOX_HEIGHT = CANVAS_HEIGHT - 2 * MARGIN - BOTTOM_EXTRA_MARGIN`. -/
def IMAGE_BOX_HEIGHT : Nat := CANVAS_HEIGHT - 2 * MARGIN - BOTTOM_EXTRA_MARGIN

/-- Constant `TEXT_SIZE` of `modify_image`. -/
def TEXT_SIZE : Nat := 60

/-- Constant `OFF_WHITE_RGB` of `modify_image` (note: `(233, 223, 199)` in the
source). -/
def OFF_WHITE_RGB : Nat × Nat × Nat := (233, 223, 199)

/-- Constant `CORNER_RADIUS` of `modify_image`. -/
def CORNER_RADIUS : Nat := 50

/-- The `off_white` pixel of `modify_image`: the off-white color with alpha 255. -/
def off_white : Rgba := ⟨OFF_WHITE_RGB.1, OFF_WHITE_RGB.2.1, OFF_WHITE_RGB.2.2, 255⟩

/-- Rust `as u8` on an `f32` (modelled as `ℚ`): saturating cast, truncation
toward zero for in-range values. -/
def f32_as_u8 (q : ℚ) : Nat := min 255 ⌊q⌋.toNat

/-- Rust `as u32` on an `f32` (modelled as `ℚ`): saturating cast, truncation
toward zero; negative values clamp to 0. -/
def f32_as_u32 (q : ℚ) : Nat := ⌊q⌋.toNat

/-- The `apply_mask` function from the source: alpha blending of a mask pixel
over an input pixel, with the result alpha forced to 255. -/
def apply_mask (input mask : Rgba) : Rgba :=
  let alpha : ℚ := (mask.a : ℚ) / 255
  { r := f32_as_u8 ((1 - alpha) * (input.r : ℚ) + alpha * (mask.r : ℚ))
    g := f32_as_u8 ((1 - alpha) * (input.g : ℚ) + alpha * (mask.g : ℚ))
    b := f32_as_u8 ((1 - alpha) * (input.b : ℚ) + alpha * (mask.b : ℚ))
    a := 255 }

/-- The scale factor computed by `modify_image`:
`f32::min(boxW / origW, boxH / origH)`, as the exact-rational idealization of
the `f32` computation.  This idealization is used only where the outcome is
robust to `f32` rounding (the 1×1280 panic input of C2 is computed exactly
even in `f32`); `scale_factor32` below is the rounding-faithful binary32 model
used for the rounding-sensitive claims.  The content box is a parameter; the
source instantiates it with `IMAGE_BOX_WIDTH`, `IMAGE_BOX_HEIGHT`. -/
def scale_factor (boxW boxH ow oh : Nat) : ℚ :=
  min ((boxW : ℚ) / (ow : ℚ)) ((boxH : ℚ) / (oh : ℚ))

/-- The scaled width of `modify_image`: `(orig_width as f32 * scale_factor) as u32`,
over the exact-rational idealization (see `scaled_width32` for the
rounding-faithful model). -/
def scaled_width (boxW boxH ow oh : Nat) : Nat :=
  f32_as_u32 ((ow : ℚ) * scale_factor boxW boxH ow oh)

/-- The scaled height of `modify_image`: `(orig_height as f32 * scale_factor) as u32`,
over the exact-rational idealization (see `scaled_height32` for the
rounding-faithful model). -/
def scaled_height (boxW boxH ow oh : Nat) : Nat :=
  f32_as_u32 ((oh : ℚ) * scale_factor boxW boxH ow oh)

/-- Round a rational to the nearest integer, ties to even — the IEEE-754
default rounding every Rust `f32` arithmetic operation uses. -/
def rne_int (x : ℚ) : ℤ :=
  if x - ⌊x⌋ < 1 / 2 then ⌊x⌋
  else if 1 / 2 < x - ⌊x⌋ then ⌊x⌋ + 1
  else if 2 ∣ ⌊x⌋ then ⌊x⌋ else ⌊x⌋ + 1

/-- IEEE binary32 rounding of a rational: round the significand to 24 bits,
nearest, ties to even.  The exponent is unbounded (no overflow, infinities or
subnormals), which agrees exactly with `f32` on the whole value range the
scaler of `modify_image` works in. -/
def fl32 (q : ℚ) : ℚ :=
  if q = 0 then 0
  else (if 0 < q then 1 else -1)
    * ((rne_int (|q| / 2 ^ (Int.log 2 |q| - 23)) : ℚ) * 2 ^ (Int.log 2 |q| - 23))

/-- Rust `f32` division: the correctly rounded rational quotient. -/
def f32_div (a b : ℚ) : ℚ := fl32 (a / b)

/-- Rust `f32` multiplication: the correctly rounded rational product. -/
def f32_mul (a b : ℚ) : ℚ := fl32 (a * b)

/-- The scale factor of `modify_image` under exact IEEE binary32 semantics:
`f32::min` of the two correctly rounded quotients.  (`f32::min` compares
exactly, and the integral operands are below `2^24`, so their `as f32` casts
are exact.) -/
def scale_factor32 (boxW boxH ow oh : Nat) : ℚ :=
  min (f32_div (boxW : ℚ) (ow : ℚ)) (f32_div (boxH : ℚ) (oh : ℚ))

/-- The scaled width `(orig_width as f32 * scale_factor) as u32` under exact
IEEE binary32 semantics: the product is rounded to binary32 before the
truncating cast. -/
def scaled_width32 (boxW boxH ow oh : Nat) : Nat :=
  f32_as_u32 (f32_mul (ow : ℚ) (scale_factor32 boxW boxH ow oh))

/-- The scaled height `(orig_height as f32 * scale_factor) as u32` under exact
IEEE binary32 semantics. -/
def scaled_height32 (boxW boxH ow oh : Nat) : Nat :=
  f32_as_u32 (f32_mul (oh : ℚ) (scale_factor32 boxW boxH ow oh))

/-- The `put_pixel` method of `RgbaImage`, as a functional update of the pixel
map (bounds handled separately, see `get_pixel` for the checked variant). -/
def put_pixel (img : PixelMap) (px py : Nat) (p : Rgba) : PixelMap :=
  fun x y => if x = px ∧ y = py then p else img x y

/-- A Rust range `a..b` over `u32`, as the list of its elements (empty when
`b ≤ a`, exactly as in Rust). -/
def rng (a b : Nat) : List Nat := (List.range (b - a)).map (a + ·)

/-- One doubly nested pixel loop
`for y in ya..yb { for x in xa..xb { put_pixel(xo + x, yo + y, f x y) } }`,
the shape of every canvas-writing loop in `modify_image`. -/
def blitR (xo yo xa xb ya yb : Nat) (f : Nat → Nat → Rgba) (img : PixelMap) :
    PixelMap :=
  (rng ya yb).foldl
    (fun im y => (rng xa xb).foldl
      (fun im x => put_pixel im (xo + x) (yo + y) (f x y)) im)
    img

/-- The `image_x_offset` of `modify_image`: `(CANVAS_WIDTH - scaled_width) / 2`. -/
def image_x_offset (w : Nat) : Nat := (CANVAS_WIDTH - w) / 2

/-- The `image_y_offset` of `modify_image`:
`(CANVAS_HEIGHT - scaled_height - BOTTOM_EXTRA_MARGIN) / 2`. -/
def image_y_offset (h : Nat) : Nat := (CANVAS_HEIGHT - h - BOTTOM_EXTRA_MARGIN) / 2

/-- The `text_offset_x` of `modify_image`: `(CANVAS_WIDTH - max_x) / 2`. -/
def text_offset_x (mx : Nat) : Nat := (CANVAS_WIDTH - mx) / 2

/-- The `text_offset_y` of `modify_image`:
`image_y_offset + scaled_height + MARGIN / 2`. -/
def text_offset_y (h : Nat) : Nat := image_y_offset h + h + MARGIN / 2

/-- The canvas-building part of `modify_image`, with the externally produced
inputs as parameters: `resized` is the Lanczos-resampled source image, `mask`
the corner-mask tile, `textC` and `mx` the rasterized text strip and its
tracked ink extent `max_x`.  The seven loops appear in source order: off-white
fill, verbatim image placement, the four corner blends (top-left, top-right,
bottom-right, bottom-left), and the text placement. -/
def composite (resized : Img) (mask : PixelMap) (textC : PixelMap) (mx : Nat) :
    PixelMap :=
  let w := resized.width
  let h := resized.height
  let xo := image_x_offset w
  let yo := image_y_offset h
  let c1 := blitR 0 0 0 CANVAS_WIDTH 0 CANVAS_HEIGHT (fun _ _ => off_white)
    (fun _ _ => ⟨0, 0, 0, 0⟩)
  let c2 := blitR xo yo 0 w 0 h (fun x y => resized.pix x y) c1
  let c3 := blitR xo yo 0 CORNER_RADIUS 0 CORNER_RADIUS
    (fun x y => apply_mask (resized.pix x y)
      (mask (CORNER_RADIUS - (x + 1)) (CORNER_RADIUS - (y + 1)))) c2
  let c4 := blitR xo yo (w - CORNER_RADIUS) w 0 CORNER_RADIUS
    (fun x y => apply_mask (resized.pix x y)
      (mask (x - (w - CORNER_RADIUS)) (CORNER_RADIUS - (y + 1)))) c3
  let c5 := blitR xo yo (w - CORNER_RADIUS) w (h - CORNER_RADIUS) h
    (fun x y => apply_mask (resized.pix x y)
      (mask (x - (w - CORNER_RADIUS)) (y - (h - CORNER_RADIUS)))) c4
  let c6 := blitR xo yo 0 CORNER_RADIUS (h - CORNER_RADIUS) h
    (fun x y => apply_mask (resized.pix x y)
      (mask (CORNER_RADIUS - (x + 1)) (y - (h - CORNER_RADIUS)))) c5
  blitR (text_offset_x mx) (text_offset_y h) 0 mx 0 TEXT_SIZE
    (fun x y => textC x y) c6

/-- Rust `as u8` on an `f32` modelled as a real number (used only for the
corner mask, whose formula contains a square root). -/
noncomputable def f32_as_u8R (v : ℝ) : Nat := min 255 ⌊v⌋.toNat

/-- The corner-mask alpha of `modify_image`:
`(sqrt(x*x + y*y) - CORNER_RADIUS + 0.5).clamp(0., 1.) * 255.` followed by the
`as u8` cast.  Rust `v.clamp(0., 1.)` is `min 1 (max 0 v)`. -/
noncomputable def corner_alpha (x y : Nat) : Nat :=
  f32_as_u8R
    (min 1 (max 0 (Real.sqrt ((x : ℝ) * (x : ℝ) + (y : ℝ) * (y : ℝ))
      - (CORNER_RADIUS : ℝ) + 0.5)) * 255)

/-- The corner-mask tile generation loop of `modify_image`: a
`CORNER_RADIUS × CORNER_RADIUS` image whose pixels carry the off-white RGB and
the `corner_alpha` value (starting from the zeroed `RgbaImage::new`). -/
noncomputable def corner_mask : PixelMap :=
  blitR 0 0 0 CORNER_RADIUS 0 CORNER_RADIUS
    (fun x y => ⟨OFF_WHITE_RGB.1, OFF_WHITE_RGB.2.1, OFF_WHITE_RGB.2.2,
      corner_alpha x y⟩)
    (fun _ _ => ⟨0, 0, 0, 0⟩)

/-- The full canvas produced by `modify_image` (the saved output image):
`CANVAS_WIDTH × CANVAS_HEIGHT`, composited from the resized source, the
generated corner mask, and the rasterized text strip. -/
noncomputable def modify_canvas (resized : Img) (textC : PixelMap) (mx : Nat) :
    Img :=
  ⟨CANVAS_WIDTH, CANVAS_HEIGHT, composite resized corner_mask textC mx⟩

/-- The text strip before glyph drawing: a
`CANVAS_WIDTH × (TEXT_SIZE + 8)` buffer filled with off-white. -/
def text_strip0 : PixelMap :=
  blitR 0 0 0 CANVAS_WIDTH 0 (TEXT_SIZE + 8) (fun _ _ => off_white)
    (fun _ _ => ⟨0, 0, 0, 0⟩)

/-- One positioned glyph as handed to the drawing loop of `modify_image`:
the `min` corner of its `pixel_bounding_box` and the coverage samples
`(x, y, v)` that `glyph.draw` reports (glyphs without a bounding box
contribute nothing and are omitted). -/
structure Glyph where
  minX : Int
  minY : Int
  samples : List (Nat × Nat × ℚ)

/-- Rust `as u32` on an `i32`: a wrapping reinterpretation. -/
def i32_as_u32 (z : Int) : Nat := (z % (2 ^ 32)).toNat

/-- The body of the `glyph.draw` closure in `modify_image`: shift the sample
by the bounding box plus 2, and when coverage exceeds 0.5 update `max_x` and
paint the strip pixel black. -/
def draw_sample (gx gy : Int) (st : PixelMap × Nat) (s : Nat × Nat × ℚ) :
    PixelMap × Nat :=
  let x := i32_as_u32 ((s.1 : Int) + gx + 2)
  let y := i32_as_u32 ((s.2.1 : Int) + gy + 2)
  if 1 / 2 < s.2.2 then (put_pixel st.1 x y ⟨0, 0, 0, 255⟩, max st.2 x) else st

/-- The glyph-drawing loop of `modify_image`: starting from the off-white
strip and `max_x = 0`, draw every sample of every laid-out glyph. -/
def render_text (glyphs : List Glyph) : PixelMap × Nat :=
  glyphs.foldl (fun st g => g.samples.foldl (draw_sample g.minX g.minY) st)
    (text_strip0, 0)

/-- The `get_pixel` method of `RgbaImage`: in the `image` crate an
out-of-bounds access is a panic, modelled as `none`. -/
def get_pixel (im : Img) (x y : Nat) : Option Rgba :=
  if x < im.width ∧ y < im.height then some (im.pix x y) else none

/-- Rust `u32` subtraction under debug semantics: underflow is a panic,
modelled as `none`. -/
def checked_sub (a b : Nat) : Option Nat := if b ≤ a then some (a - b) else none

/-- The panic-aware variant of one nested pixel loop: the written value may
fail (out-of-bounds `get_pixel`), aborting the loop. -/
def blit_checked (xo yo xa xb ya yb : Nat) (f : Nat → Nat → Option Rgba)
    (img : PixelMap) : Option PixelMap :=
  (rng ya yb).foldlM
    (fun im y => (rng xa xb).foldlM
      (fun im x => (f x y).map fun p => put_pixel im (xo + x) (yo + y) p) im)
    img

/-- The four corner-blending loops of `modify_image` (lines 155-195) with the
source's fallible operations made explicit: every `get_pixel` is
bounds-checked and every `u32` subtraction on the scaled dimensions is
underflow-checked.  The source performs no validation before these loops;
`none` marks the panic the unchecked Rust code hits. -/
def apply_corners_checked (resized : Img) (mask : Img) (canvas : PixelMap) :
    Option PixelMap := do
  let w := resized.width
  let h := resized.height
  let xo := image_x_offset w
  let yo := image_y_offset h
  let c3 ← blit_checked xo yo 0 CORNER_RADIUS 0 CORNER_RADIUS (fun x y => do
    let p ← get_pixel resized x y
    let m ← get_pixel mask (CORNER_RADIUS - (x + 1)) (CORNER_RADIUS - (y + 1))
    pure (apply_mask p m)) canvas
  let wR ← checked_sub w CORNER_RADIUS
  let c4 ← blit_checked xo yo wR w 0 CORNER_RADIUS (fun x y => do
    let p ← get_pixel resized x y
    let m ← get_pixel mask (x - wR) (CORNER_RADIUS - (y + 1))
    pure (apply_mask p m)) c3
  let hR ← checked_sub h CORNER_RADIUS
  let c5 ← blit_checked xo yo wR w hR h (fun x y => do
    let p ← get_pixel resized x y
    let m ← get_pixel mask (x - wR) (y - hR)
    pure (apply_mask p m)) c4
  let c6 ← blit_checked xo yo 0 CORNER_RADIUS hR h (fun x y => do
    let p ← get_pixel resized x y
    let m ← get_pixel mask (CORNER_RADIUS - (x + 1)) (y - hR)
    pure (apply_mask p m)) c5
  pure c6

/-- RGB delta between two pixels, channelwise over `ℤ` (used to state the
corner-symmetry property). -/
def rgb_delta (p q : Rgba) : Int × Int × Int :=
  ((p.r : Int) - (q.r : Int), (p.g : Int) - (q.g : Int), (p.b : Int) - (q.b : Int))

/-- Example resized image (dimensions exactly filling the content box), fully
opaque. -/
def exImg : Img := ⟨2460, 1280, fun _ _ => ⟨10, 20, 30, 255⟩⟩

/-- Example resized image carrying partial transparency (alpha 128), as the
resampling of a PNG source with a constant 128 alpha channel produces. -/
def exImgT : Img := ⟨2460, 1280, fun _ _ => ⟨10, 20, 30, 128⟩⟩

/-- Example text strip holding only background pixels. -/
def exStrip : PixelMap := fun _ _ => off_white

/-- Example glyph whose only coverage sample stays at or below the 0.5
threshold. -/
def exGlyph : Glyph := ⟨1, 2, [(0, 0, (1 : ℚ) / 4)]⟩

/-- Lookup after one row loop `for i in 0..n { put_pixel(xo + (xa+i), yo + (ya+j), f (xa+i) (ya+j)) }`. -/
theorem row_eval (xo yo xa ya j : Nat) (f : Nat → Nat → Rgba) (n : Nat)
    (im : PixelMap) (px py : Nat) :
    ((List.range n).foldl
      (fun im i => put_pixel im (xo + (xa + i)) (yo + (ya + j)) (f (xa + i) (ya + j)))
      im) px py =
      if py = yo + (ya + j) ∧ xo + xa ≤ px ∧ px < xo + xa + n then
        f (px - xo) (ya + j)
      else im px py := by
  induction n with
  | zero =>
    rw [if_neg (by omega)]
    simp
  | succ n ih =>
    rw [List.range_succ, List.foldl_append, List.foldl_cons, List.foldl_nil]
    simp only [put_pixel]
    rw [ih]
    split_ifs <;> try rfl
    all_goals
      first
        | omega
        | (have hpx : px - xo = xa + n := by omega
           rw [hpx])

/-- Lookup after the doubly nested loop, with both loops in `List.range` form. -/
theorem col_eval (xo yo xa xb ya : Nat) (f : Nat → Nat → Rgba) (n : Nat)
    (im : PixelMap) (px py : Nat) :
    ((List.range n).foldl
      (fun im j => (List.range (xb - xa)).foldl
        (fun im i => put_pixel im (xo + (xa + i)) (yo + (ya + j)) (f (xa + i) (ya + j)))
        im)
      im) px py =
      if yo + ya ≤ py ∧ py < yo + ya + n ∧ xo + xa ≤ px ∧ px < xo + xa + (xb - xa)
      then f (px - xo) (py - yo)
      else im px py := by
  induction n with
  | zero =>
    rw [if_neg (by omega)]
    simp
  | succ n ih =>
    rw [List.range_succ, List.foldl_append, List.foldl_cons, List.foldl_nil]
    rw [row_eval, ih]
    split_ifs <;> try rfl
    all_goals
      first
        | omega
        | (have hpy : py - yo = ya + n := by omega
           rw [hpy])

/-- Lookup after one `blitR` loop: inside the written rectangle the new value,
outside it the previous buffer. -/
theorem blitR_eval (xo yo xa xb ya yb : Nat) (f : Nat → Nat → Rgba)
    (img : PixelMap) (px py : Nat) :
    blitR xo yo xa xb ya yb f img px py =
      if xo + xa ≤ px ∧ px < xo + xb ∧ yo + ya ≤ py ∧ py < yo + yb then
        f (px - xo) (py - yo)
      else img px py := by
  unfold blitR rng
  simp only [List.foldl_map]
  rw [col_eval]
  exact if_congr (by omega) rfl rfl

/-- Casting a nat through the saturating `as u32` model is the identity. -/
theorem f32_as_u32_natCast (n : Nat) : f32_as_u32 (n : ℚ) = n := by
  simp [f32_as_u32, Int.floor_natCast]

/-- The saturating `as u32` model is bounded by any nat bound of its argument. -/
theorem f32_as_u32_le_nat (q : ℚ) (n : Nat) (h : q ≤ (n : ℚ)) :
    f32_as_u32 q ≤ n := by
  have h1 : ⌊q⌋ ≤ (n : Int) := by
    have := Int.floor_le_floor h
    rwa [Int.floor_natCast] at this
  simp only [f32_as_u32]
  omega

/-- Casting a nat at most 255 through the `as u8` model is the identity. -/
theorem f32_as_u8_natCast (n : Nat) (h : n ≤ 255) : f32_as_u8 (n : ℚ) = n := by
  simp only [f32_as_u8, Int.floor_natCast, Int.toNat_natCast]
  omega

/-- Claim C3 (counterexample): for the 4000×3000 source of the spec's own
end-to-end example, the code computes `scaled_width = 1706` by the truncating
`as u32` cast, while rounding `s·Ww = 1706.6…` to nearest would give 1707 —
the scaled dimensions are truncated, not rounded. -/
theorem C3_cex :
    scaled_width IMAGE_BOX_WIDTH IMAGE_BOX_HEIGHT 4000 3000 = 1706 ∧
    round ((4000 : ℚ) * scale_factor IMAGE_BOX_WIDTH IMAGE_BOX_HEIGHT 4000 3000)
      = 1707 := by
  constructor
  · norm_num [scaled_width, f32_as_u32, scale_factor, IMAGE_BOX_WIDTH,
      IMAGE_BOX_HEIGHT, CANVAS_WIDTH, CANVAS_HEIGHT, MARGIN, BOTTOM_EXTRA_MARGIN,
      Int.floor_eq_iff]
    decide
  · norm_num [scale_factor, round_eq, IMAGE_BOX_WIDTH, IMAGE_BOX_HEIGHT,
      CANVAS_WIDTH, CANVAS_HEIGHT, MARGIN, BOTTOM_EXTRA_MARGIN, Int.floor_eq_iff]

/-- Claim C3 (amended): the Scaler computes `s = min(BoxW/Ww, BoxH/Hh)` and
produces `scaledW` and `scaledH` by truncating `s·Ww` and `s·Hh` toward zero
(the `as u32` cast), i.e. `scaledW ≤ s·Ww < scaledW + 1` and likewise for the
height — truncation, not rounding to nearest. -/
theorem C3_truncation (boxW boxH ow oh : Nat) :
    ((scaled_width boxW boxH ow oh : ℚ) ≤ (ow : ℚ) * scale_factor boxW boxH ow oh
      ∧ (ow : ℚ) * scale_factor boxW boxH ow oh < scaled_width boxW boxH ow oh + 1)
    ∧ ((scaled_height boxW boxH ow oh : ℚ) ≤ (oh : ℚ) * scale_factor boxW boxH ow oh
      ∧ (oh : ℚ) * scale_factor boxW boxH ow oh < scaled_height boxW boxH ow oh + 1) := by
  have hs : 0 ≤ scale_factor boxW boxH ow oh :=
    le_min (by positivity) (by positivity)
  have hw : 0 ≤ (ow : ℚ) * scale_factor boxW boxH ow oh :=
    mul_nonneg (by positivity) hs
  have hh : 0 ≤ (oh : ℚ) * scale_factor boxW boxH ow oh :=
    mul_nonneg (by positivity) hs
  refine ⟨⟨?_, ?_⟩, ⟨?_, ?_⟩⟩
  · rw [scaled_width, f32_as_u32, Int.floor_toNat]
    exact Nat.floor_le hw
  · rw [scaled_width, f32_as_u32, Int.floor_toNat]
    exact Nat.lt_floor_add_one _
  · rw [scaled_height, f32_as_u32, Int.floor_toNat]
    exact Nat.floor_le hh
  · rw [scaled_height, f32_as_u32, Int.floor_toNat]
    exact Nat.lt_floor_add_one _

/-- Claim C5: `apply_mask` blends linearly with `alpha = maskA/255`; an opaque
mask pixel yields exactly the mask's RGB (the background color stored in the
mask), a transparent one yields exactly the photo pixel, and the result alpha
is always 255. -/
theorem C5_blend (input mask : Rgba) (hir : input.r ≤ 255) (hig : input.g ≤ 255)
    (hib : input.b ≤ 255) (hmr : mask.r ≤ 255) (hmg : mask.g ≤ 255)
    (hmb : mask.b ≤ 255) :
    (mask.a = 255 →
      (apply_mask input mask).r = mask.r ∧ (apply_mask input mask).g = mask.g ∧
        (apply_mask input mask).b = mask.b) ∧
    (mask.a = 0 →
      (apply_mask input mask).r = input.r ∧ (apply_mask input mask).g = input.g ∧
        (apply_mask input mask).b = input.b) ∧
    ((apply_mask input mask).r
        = f32_as_u8 ((1 - (mask.a : ℚ) / 255) * (input.r : ℚ)
            + (mask.a : ℚ) / 255 * (mask.r : ℚ)) ∧
      (apply_mask input mask).g
        = f32_as_u8 ((1 - (mask.a : ℚ) / 255) * (input.g : ℚ)
            + (mask.a : ℚ) / 255 * (mask.g : ℚ)) ∧
      (apply_mask input mask).b
        = f32_as_u8 ((1 - (mask.a : ℚ) / 255) * (input.b : ℚ)
            + (mask.a : ℚ) / 255 * (mask.b : ℚ))) ∧
    (apply_mask input mask).a = 255 := by
  refine ⟨?_, ?_, ⟨rfl, rfl, rfl⟩, rfl⟩
  · intro ha
    have h1 : ∀ c m : Nat, (1 - ((255 : Nat) : ℚ) / 255) * (c : ℚ)
        + ((255 : Nat) : ℚ) / 255 * (m : ℚ) = (m : ℚ) := by
      intro c m
      norm_num
    simp only [apply_mask, ha, h1]
    exact ⟨f32_as_u8_natCast _ hmr, f32_as_u8_natCast _ hmg, f32_as_u8_natCast _ hmb⟩
  · intro ha
    have h1 : ∀ c m : Nat, (1 - ((0 : Nat) : ℚ) / 255) * (c : ℚ)
        + ((0 : Nat) : ℚ) / 255 * (m : ℚ) = (c : ℚ) := by
      intro c m
      norm_num
    simp only [apply_mask, ha, h1]
    exact ⟨f32_as_u8_natCast _ hir, f32_as_u8_natCast _ hig, f32_as_u8_natCast _ hib⟩

/-- Witness for C5 at a concrete photo pixel and an opaque background mask
pixel. -/
theorem C5_blend_witness :
    ((⟨233, 223, 199, 255⟩ : Rgba).a = 255 →
      (apply_mask ⟨10, 20, 30, 200⟩ ⟨233, 223, 199, 255⟩).r = 233 ∧
        (apply_mask ⟨10, 20, 30, 200⟩ ⟨233, 223, 199, 255⟩).g = 223 ∧
        (apply_mask ⟨10, 20, 30, 200⟩ ⟨233, 223, 199, 255⟩).b = 199) ∧
    ((⟨233, 223, 199, 255⟩ : Rgba).a = 0 →
      (apply_mask ⟨10, 20, 30, 200⟩ ⟨233, 223, 199, 255⟩).r = 10 ∧
        (apply_mask ⟨10, 20, 30, 200⟩ ⟨233, 223, 199, 255⟩).g = 20 ∧
        (apply_mask ⟨10, 20, 30, 200⟩ ⟨233, 223, 199, 255⟩).b = 30) ∧
    ((apply_mask ⟨10, 20, 30, 200⟩ ⟨233, 223, 199, 255⟩).r
        = f32_as_u8 ((1 - ((255 : Nat) : ℚ) / 255) * ((10 : Nat) : ℚ)
            + ((255 : Nat) : ℚ) / 255 * ((233 : Nat) : ℚ)) ∧
      (apply_mask ⟨10, 20, 30, 200⟩ ⟨233, 223, 199, 255⟩).g
        = f32_as_u8 ((1 - ((255 : Nat) : ℚ) / 255) * ((20 : Nat) : ℚ)
            + ((255 : Nat) : ℚ) / 255 * ((223 : Nat) : ℚ)) ∧
      (apply_mask ⟨10, 20, 30, 200⟩ ⟨233, 223, 199, 255⟩).b
        = f32_as_u8 ((1 - ((255 : Nat) : ℚ) / 255) * ((30 : Nat) : ℚ)
            + ((255 : Nat) : ℚ) / 255 * ((199 : Nat) : ℚ))) ∧
    (apply_mask ⟨10, 20, 30, 200⟩ ⟨233, 223, 199, 255⟩).a = 255 :=
  C5_blend ⟨10, 20, 30, 200⟩ ⟨233, 223, 199, 255⟩ (by norm_num) (by norm_num)
    (by norm_num) (by norm_num) (by norm_num) (by norm_num)

/-- Claim C2: the code performs no geometry validation.  For a 1×1280 source
the scaler produces a 1×1280 resized image, on which the very first
corner-blending loop reads `resized_img.get_pixel(x, y)` for `x` up to
`CORNER_RADIUS - 1 = 49` — out of range from `x = 1` on.  With every fallible
operation of the corner loops made explicit, the computation aborts (a panic
in the Rust code) instead of any configuration error being returned before
compositing. -/
theorem C2_panic :
    scaled_width IMAGE_BOX_WIDTH IMAGE_BOX_HEIGHT 1 1280 = 1 ∧
    scaled_height IMAGE_BOX_WIDTH IMAGE_BOX_HEIGHT 1 1280 = 1280 ∧
    apply_corners_checked ⟨1, 1280, fun _ _ => ⟨10, 20, 30, 255⟩⟩
      ⟨CORNER_RADIUS, CORNER_RADIUS, corner_mask⟩ (fun _ _ => off_white) = none := by
  refine ⟨?_, ?_, rfl⟩
  · norm_num [scaled_width, f32_as_u32, scale_factor, IMAGE_BOX_WIDTH,
      IMAGE_BOX_HEIGHT, CANVAS_WIDTH, CANVAS_HEIGHT, MARGIN, BOTTOM_EXTRA_MARGIN,
      Int.floor_eq_iff]
  · norm_num [scaled_height, f32_as_u32, scale_factor, IMAGE_BOX_WIDTH,
      IMAGE_BOX_HEIGHT, CANVAS_WIDTH, CANVAS_HEIGHT, MARGIN, BOTTOM_EXTRA_MARGIN,
      Int.floor_eq_iff]
    decide

/-- Claim C7: for every in-range coordinate of the generated corner-mask tile,
the pixel carries the background RGB and the alpha
`clamp(sqrt(x²+y²) - R + 0.5, 0, 1) × 255` cast to 8 bits. -/
theorem C7_mask (x y : Nat) (hx : x < CORNER_RADIUS) (hy : y < CORNER_RADIUS) :
    corner_mask x y =
      ⟨OFF_WHITE_RGB.1, OFF_WHITE_RGB.2.1, OFF_WHITE_RGB.2.2,
        f32_as_u8R (min 1 (max 0 (Real.sqrt ((x : ℝ) * (x : ℝ) + (y : ℝ) * (y : ℝ))
          - (CORNER_RADIUS : ℝ) + 0.5)) * 255)⟩ := by
  rw [corner_mask, blitR_eval, if_pos ⟨by omega, by omega, by omega, by omega⟩]
  simp [corner_alpha]

/-- Witness for C7 at the tile coordinate (0,0), where the clamp saturates at
0 and the mask pixel is the background color at alpha 0. -/
theorem C7_mask_witness : corner_mask 0 0 = ⟨233, 223, 199, 0⟩ := by
  rw [C7_mask 0 0 (by decide) (by decide)]
  simp only [Rgba.mk.injEq]
  refine ⟨by decide, by decide, by decide, ?_⟩
  norm_num [f32_as_u8R, CORNER_RADIUS, max_def, min_def]

/-- Claim C8: the caption sub-rectangle `[0, maxX] × [0, TEXT_SIZE]` of the
strip lands on the canvas with left edge `(CANVAS_WIDTH - maxX) / 2` and top
edge at the placed image's bottom edge plus half the margin. -/
theorem C8_caption (resized : Img) (textC : PixelMap) (mx x y : Nat)
    (hx : x < mx) (hy : y < TEXT_SIZE) (hmx : mx ≤ CANVAS_WIDTH)
    (hh : resized.height ≤ IMAGE_BOX_HEIGHT) :
    (modify_canvas resized textC mx).pix (text_offset_x mx + x)
        (text_offset_y resized.height + y) = textC x y ∧
      text_offset_x mx = (CANVAS_WIDTH - mx) / 2 ∧
      text_offset_y resized.height
        = image_y_offset resized.height + resized.height + MARGIN / 2 := by
  refine ⟨?_, rfl, rfl⟩
  simp only [modify_canvas, composite]
  rw [blitR_eval, if_pos ⟨by omega, by omega, by omega, by omega⟩]
  have h1 : text_offset_x mx + x - text_offset_x mx = x := by omega
  have h2 : text_offset_y resized.height + y - text_offset_y resized.height = y := by
    omega
  rw [h1, h2]

/-- Witness for C8 at a concrete strip position inside the ink extent. -/
theorem C8_caption_witness :
    (modify_canvas exImg exStrip 40).pix (text_offset_x 40 + 3)
        (text_offset_y exImg.height + 4) = exStrip 3 4 ∧
      text_offset_x 40 = (CANVAS_WIDTH - 40) / 2 ∧
      text_offset_y exImg.height
        = image_y_offset exImg.height + exImg.height + MARGIN / 2 :=
  C8_caption exImg exStrip 40 3 4 (by decide) (by decide) (by decide) (by decide)

/-- Claim C6: the four corner treatments are one function under coordinate
reflection.  The single generated tile `corner_mask` is indexed with the
reflected coordinates in each corner loop, so for a source whose pixels are
symmetric under the corresponding reflection, the blended pixel written at the
reflected positions of the top-right, bottom-left and bottom-right corners
equals the one written at `(x, y)` in the top-left corner — in particular the
RGB deltas against the underlying photo pixel coincide. -/
theorem C6_corner_symmetry (resized : Img) (textC : PixelMap) (mx x y : Nat)
    (hx : x < CORNER_RADIUS) (hy : y < CORNER_RADIUS)
    (hw : 2 * CORNER_RADIUS ≤ resized.width)
    (hh : 2 * CORNER_RADIUS ≤ resized.height)
    (hwb : resized.width ≤ IMAGE_BOX_WIDTH) (hhb : resized.height ≤ IMAGE_BOX_HEIGHT)
    (hsx : resized.pix (resized.width - 1 - x) y = resized.pix x y)
    (hsy : resized.pix x (resized.height - 1 - y) = resized.pix x y)
    (hsxy : resized.pix (resized.width - 1 - x) (resized.height - 1 - y)
      = resized.pix x y) :
    rgb_delta
        ((modify_canvas resized textC mx).pix
          (image_x_offset resized.width + (resized.width - 1 - x))
          (image_y_offset resized.height + y))
        (resized.pix (resized.width - 1 - x) y)
      = rgb_delta
          ((modify_canvas resized textC mx).pix
            (image_x_offset resized.width + x) (image_y_offset resized.height + y))
          (resized.pix x y) ∧
    rgb_delta
        ((modify_canvas resized textC mx).pix
          (image_x_offset resized.width + x)
          (image_y_offset resized.height + (resized.height - 1 - y)))
        (resized.pix x (resized.height - 1 - y))
      = rgb_delta
          ((modify_canvas resized textC mx).pix
            (image_x_offset resized.width + x) (image_y_offset resized.height + y))
          (resized.pix x y) ∧
    rgb_delta
        ((modify_canvas resized textC mx).pix
          (image_x_offset resized.width + (resized.width - 1 - x))
          (image_y_offset resized.height + (resized.height - 1 - y)))
        (resized.pix (resized.width - 1 - x) (resized.height - 1 - y))
      = rgb_delta
          ((modify_canvas resized textC mx).pix
            (image_x_offset resized.width + x) (image_y_offset resized.height + y))
          (resized.pix x y) := by
  have hTL : (modify_canvas resized textC mx).pix
      (image_x_offset resized.width + x) (image_y_offset resized.height + y)
      = apply_mask (resized.pix x y)
          (corner_mask (CORNER_RADIUS - (x + 1)) (CORNER_RADIUS - (y + 1))) := by
    simp only [modify_canvas, composite, text_offset_y]
    rw [blitR_eval, if_neg (by omega)]
    rw [blitR_eval, if_neg (by omega)]
    rw [blitR_eval, if_neg (by omega)]
    rw [blitR_eval, if_neg (by omega)]
    rw [blitR_eval, if_pos (by omega)]
    have h1 : image_x_offset resized.width + x - image_x_offset resized.width = x := by
      omega
    have h2 : image_y_offset resized.height + y - image_y_offset resized.height = y := by
      omega
    rw [h1, h2]
  have hTR : (modify_canvas resized textC mx).pix
      (image_x_offset resized.width + (resized.width - 1 - x))
      (image_y_offset resized.height + y)
      = apply_mask (resized.pix x y)
          (corner_mask (CORNER_RADIUS - (x + 1)) (CORNER_RADIUS - (y + 1))) := by
    simp only [modify_canvas, composite, text_offset_y]
    rw [blitR_eval, if_neg (by omega)]
    rw [blitR_eval, if_neg (by omega)]
    rw [blitR_eval, if_neg (by omega)]
    rw [blitR_eval, if_pos (by omega)]
    have h1 : image_x_offset resized.width + (resized.width - 1 - x)
        - image_x_offset resized.width = resized.width - 1 - x := by omega
    have h2 : image_y_offset resized.height + y - image_y_offset resized.height = y := by
      omega
    rw [h1, h2, hsx]
    have h3 : resized.width - 1 - x - (resized.width - CORNER_RADIUS)
        = CORNER_RADIUS - (x + 1) := by omega
    rw [h3]
  have hBL : (modify_canvas resized textC mx).pix
      (image_x_offset resized.width + x)
      (image_y_offset resized.height + (resized.height - 1 - y))
      = apply_mask (resized.pix x y)
          (corner_mask (CORNER_RADIUS - (x + 1)) (CORNER_RADIUS - (y + 1))) := by
    simp only [modify_canvas, composite, text_offset_y]
    rw [blitR_eval, if_neg (by omega)]
    rw [blitR_eval, if_pos (by omega)]
    have h1 : image_x_offset resized.width + x - image_x_offset resized.width = x := by
      omega
    have h2 : image_y_offset resized.height + (resized.height - 1 - y)
        - image_y_offset resized.height = resized.height - 1 - y := by omega
    rw [h1, h2, hsy]
    have h3 : resized.height - 1 - y - (resized.height - CORNER_RADIUS)
        = CORNER_RADIUS - (y + 1) := by omega
    rw [h3]
  have hBR : (modify_canvas resized textC mx).pix
      (image_x_offset resized.width + (resized.width - 1 - x))
      (image_y_offset resized.height + (resized.height - 1 - y))
      = apply_mask (resized.pix x y)
          (corner_mask (CORNER_RADIUS - (x + 1)) (CORNER_RADIUS - (y + 1))) := by
    simp only [modify_canvas, composite, text_offset_y]
    rw [blitR_eval, if_neg (by omega)]
    rw [blitR_eval, if_neg (by omega)]
    rw [blitR_eval, if_pos (by omega)]
    have h1 : image_x_offset resized.width + (resized.width - 1 - x)
        - image_x_offset resized.width = resized.width - 1 - x := by omega
    have h2 : image_y_offset resized.height + (resized.height - 1 - y)
        - image_y_offset resized.height = resized.height - 1 - y := by omega
    rw [h1, h2, hsxy]
    have h3 : resized.width - 1 - x - (resized.width - CORNER_RADIUS)
        = CORNER_RADIUS - (x + 1) := by omega
    have h4 : resized.height - 1 - y - (resized.height - CORNER_RADIUS)
        = CORNER_RADIUS - (y + 1) := by omega
    rw [h3, h4]
  rw [hTL, hTR, hBL, hBR, hsx, hsy, hsxy]
  exact ⟨rfl, rfl, rfl⟩

/-- Witness for C6 at (3,7) on a constant (hence reflection-symmetric)
resized image. -/
theorem C6_corner_symmetry_witness :
    rgb_delta
        ((modify_canvas exImg exStrip 0).pix
          (image_x_offset exImg.width + (exImg.width - 1 - 3))
          (image_y_offset exImg.height + 7))
        (exImg.pix (exImg.width - 1 - 3) 7)
      = rgb_delta
          ((modify_canvas exImg exStrip 0).pix
            (image_x_offset exImg.width + 3) (image_y_offset exImg.height + 7))
          (exImg.pix 3 7) ∧
    rgb_delta
        ((modify_canvas exImg exStrip 0).pix
          (image_x_offset exImg.width + 3)
          (image_y_offset exImg.height + (exImg.height - 1 - 7)))
        (exImg.pix 3 (exImg.height - 1 - 7))
      = rgb_delta
          ((modify_canvas exImg exStrip 0).pix
            (image_x_offset exImg.width + 3) (image_y_offset exImg.height + 7))
          (exImg.pix 3 7) ∧
    rgb_delta
        ((modify_canvas exImg exStrip 0).pix
          (image_x_offset exImg.width + (exImg.width - 1 - 3))
          (image_y_offset exImg.height + (exImg.height - 1 - 7)))
        (exImg.pix (exImg.width - 1 - 3) (exImg.height - 1 - 7))
      = rgb_delta
          ((modify_canvas exImg exStrip 0).pix
            (image_x_offset exImg.width + 3) (image_y_offset exImg.height + 7))
          (exImg.pix 3 7) :=
  C6_corner_symmetry exImg exStrip 0 3 7 (by decide) (by decide) (by decide)
    (by decide) (by decide) (by decide) rfl rfl rfl

/-- Claim C1 (counterexample): for a resized source carrying partial
transparency (constant alpha 128), the final canvas pixel at (1280, 690) —
inside the placed image, outside every corner region — keeps alpha 128: the
verbatim placement loop copies the source alpha into the output, so the
all-opaque invariant fails for transparent sources. -/
theorem C1_cex :
    ((modify_canvas exImgT exStrip 0).pix 1280 690).a = 128 ∧ (128 : Nat) ≠ 255 := by
  refine ⟨?_, by decide⟩
  simp only [modify_canvas, composite]
  rw [blitR_eval, if_neg (by decide)]
  rw [blitR_eval, if_neg (by decide)]
  rw [blitR_eval, if_neg (by decide)]
  rw [blitR_eval, if_neg (by decide)]
  rw [blitR_eval, if_neg (by decide)]
  rw [blitR_eval, if_pos (by decide)]
  rfl

/-- Claim C1 (amended): whenever every in-range pixel of the resized source
and of the copied caption strip is fully opaque (as for JPEG sources), every
canvas pixel is fully opaque; the background fill and the corner blends force
alpha 255 unconditionally, but the interior of the placed image keeps the
source alpha verbatim (see the counterexample). -/
theorem C1_opaque (resized : Img) (textC : PixelMap) (mx px py : Nat)
    (hw : CORNER_RADIUS ≤ resized.width) (hh : CORNER_RADIUS ≤ resized.height)
    (hpx : px < CANVAS_WIDTH) (hpy : py < CANVAS_HEIGHT)
    (himg : ∀ x y, x < resized.width → y < resized.height → (resized.pix x y).a = 255)
    (htc : ∀ x y, x < mx → y < TEXT_SIZE → (textC x y).a = 255) :
    ((modify_canvas resized textC mx).pix px py).a = 255 := by
  simp only [modify_canvas, composite]
  rw [blitR_eval]
  split_ifs with h1
  · exact htc _ _ (by omega) (by omega)
  · rw [blitR_eval]
    split_ifs with h2
    · rfl
    · rw [blitR_eval]
      split_ifs with h3
      · rfl
      · rw [blitR_eval]
        split_ifs with h4
        · rfl
        · rw [blitR_eval]
          split_ifs with h5
          · rfl
          · rw [blitR_eval]
            split_ifs with h6
            · exact himg _ _ (by omega) (by omega)
            · rw [blitR_eval, if_pos (by omega)]
              rfl

/-- Witness for C1 (amended) at a background pixel of a fully opaque example. -/
theorem C1_opaque_witness :
    ((modify_canvas exImg exStrip 12).pix 5 5).a = 255 :=
  C1_opaque exImg exStrip 12 5 5 (by decide) (by decide) (by decide) (by decide)
    (fun _ _ _ _ => rfl) (fun _ _ _ _ => rfl)

/-- Claim C9 (counterexample): the canvas corner pixel (0,0) — background,
outside the placed image and the caption — is the off-white `(233, 223, 199)`
of the source constant `OFF_WHITE_RGB`, not the `(229, 223, 199)` the claim
states. -/
theorem C9_cex :
    (modify_canvas exImg exStrip 0).pix 0 0 = ⟨233, 223, 199, 255⟩ ∧
    (⟨233, 223, 199, 255⟩ : Rgba) ≠ ⟨229, 223, 199, 255⟩ := by
  refine ⟨?_, by decide⟩
  simp only [modify_canvas, composite]
  rw [blitR_eval, if_neg (by decide)]
  rw [blitR_eval, if_neg (by decide)]
  rw [blitR_eval, if_neg (by decide)]
  rw [blitR_eval, if_neg (by decide)]
  rw [blitR_eval, if_neg (by decide)]
  rw [blitR_eval, if_neg (by decide)]
  rw [blitR_eval, if_pos (by decide)]
  rfl

/-- Claim C9 (amended): in the end-to-end configuration the output raster is
exactly `2560 × 1530` and every pixel outside the placed image whose position
is not covered by caption ink (the strip holds the background color wherever
it is not ink) is the off-white `(233, 223, 199)` at full opacity. -/
theorem C9_background (resized : Img) (textC : PixelMap) (mx px py : Nat)
    (hw : CORNER_RADIUS ≤ resized.width) (hh : CORNER_RADIUS ≤ resized.height)
    (hpx : px < CANVAS_WIDTH) (hpy : py < CANVAS_HEIGHT)
    (himg : ¬ (image_x_offset resized.width ≤ px ∧
      px < image_x_offset resized.width + resized.width ∧
      image_y_offset resized.height ≤ py ∧
      py < image_y_offset resized.height + resized.height))
    (htc : (text_offset_x mx ≤ px ∧ px < text_offset_x mx + mx ∧
        text_offset_y resized.height ≤ py ∧
        py < text_offset_y resized.height + TEXT_SIZE) →
      textC (px - text_offset_x mx) (py - text_offset_y resized.height) = off_white) :
    (modify_canvas resized textC mx).width = CANVAS_WIDTH ∧
    (modify_canvas resized textC mx).height = CANVAS_HEIGHT ∧
    (modify_canvas resized textC mx).pix px py = off_white := by
  refine ⟨rfl, rfl, ?_⟩
  simp only [modify_canvas, composite]
  rw [blitR_eval]
  split_ifs with h1
  · exact htc ⟨by omega, by omega, by omega, by omega⟩
  · rw [blitR_eval, if_neg (by omega)]
    rw [blitR_eval, if_neg (by omega)]
    rw [blitR_eval, if_neg (by omega)]
    rw [blitR_eval, if_neg (by omega)]
    rw [blitR_eval, if_neg (by omega)]
    rw [blitR_eval, if_pos (by omega)]

/-- Witness for C9 (amended) at the background pixel (10,10). -/
theorem C9_background_witness :
    (modify_canvas exImg exStrip 40).width = CANVAS_WIDTH ∧
    (modify_canvas exImg exStrip 40).height = CANVAS_HEIGHT ∧
    (modify_canvas exImg exStrip 40).pix 10 10 = off_white :=
  C9_background exImg exStrip 40 10 10 (by decide) (by decide) (by decide)
    (by decide) (by decide) (by decide)

/-- A sample whose coverage does not exceed 0.5 leaves the drawing state
untouched. -/
theorem draw_fold_no_ink (gx gy : Int) (l : List (Nat × Nat × ℚ))
    (h : ∀ s ∈ l, s.2.2 ≤ 1 / 2) (st : PixelMap × Nat) :
    l.foldl (draw_sample gx gy) st = st := by
  induction l generalizing st with
  | nil => rfl
  | cons s l ih =>
    rw [List.foldl_cons]
    have hs : draw_sample gx gy st s = st := by
      simp only [draw_sample]
      rw [if_neg (not_lt.mpr (h s (List.mem_cons_self s l)))]
    rw [hs]
    exact ih (fun t ht => h t (List.mem_cons_of_mem _ ht)) st

/-- When no glyph sample exceeds the coverage threshold, the text renderer
returns the untouched off-white strip and `max_x = 0`. -/
theorem render_text_no_ink (glyphs : List Glyph)
    (hcov : ∀ g ∈ glyphs, ∀ s ∈ g.samples, s.2.2 ≤ 1 / 2) :
    render_text glyphs = (text_strip0, 0) := by
  rw [render_text]
  induction glyphs with
  | nil => rfl
  | cons g gs ih =>
    rw [List.foldl_cons,
      draw_fold_no_ink g.minX g.minY g.samples (hcov g (List.mem_cons_self g gs))]
    exact ih (fun t ht s hs => hcov t (List.mem_cons_of_mem _ ht) s hs)

/-- Claim C10: a caption whose glyphs never exceed coverage 0.5 (for example
the empty string) leaves `max_x = 0`, so the text-compositing loop copies
nothing and every canvas pixel below the placed image stays at the background
color. -/
theorem C10_no_ink (glyphs : List Glyph) (resized : Img) (px py : Nat)
    (hcov : ∀ g ∈ glyphs, ∀ s ∈ g.samples, s.2.2 ≤ 1 / 2)
    (hw : CORNER_RADIUS ≤ resized.width) (hh : CORNER_RADIUS ≤ resized.height)
    (hpx : px < CANVAS_WIDTH) (hpy : py < CANVAS_HEIGHT)
    (hbelow : image_y_offset resized.height + resized.height ≤ py) :
    (render_text glyphs).2 = 0 ∧
    (modify_canvas resized (render_text glyphs).1 (render_text glyphs).2).pix px py
      = off_white := by
  rw [render_text_no_ink glyphs hcov]
  refine ⟨rfl, ?_⟩
  simp only [modify_canvas, composite]
  rw [blitR_eval, if_neg (by omega)]
  rw [blitR_eval, if_neg (by omega)]
  rw [blitR_eval, if_neg (by omega)]
  rw [blitR_eval, if_neg (by omega)]
  rw [blitR_eval, if_neg (by omega)]
  rw [blitR_eval, if_neg (by omega)]
  rw [blitR_eval, if_pos (by omega)]

/-- Witness for C10 with a single glyph at coverage 1/4 and a pixel below the
placed image. -/
theorem C10_no_ink_witness :
    (render_text [exGlyph]).2 = 0 ∧
    (modify_canvas exImg (render_text [exGlyph]).1 (render_text [exGlyph]).2).pix
      0 1400 = off_white :=
  C10_no_ink [exGlyph] exImg 0 1400
    (by
      norm_num [exGlyph]
      rintro _ _ q _ _ rfl
      norm_num)
    (by decide) (by decide) (by decide) (by decide) (by decide)

/-- Pin a concrete value of `Int.log 2` from power bounds. -/
theorem int_log2_eq {q : ℚ} {L : ℤ} (hq : 0 < q) (h1 : (2:ℚ) ^ L ≤ q)
    (h2 : q < (2:ℚ) ^ (L + 1)) : Int.log 2 q = L := by
  have hlo : L ≤ Int.log 2 q := by
    rw [← Int.zpow_le_iff_le_log one_lt_two hq]
    exact_mod_cast h1
  have hhi : Int.log 2 q < L + 1 := by
    rw [← Int.lt_zpow_iff_log_lt one_lt_two hq]
    exact_mod_cast h2
  omega

/-- Round-to-nearest never adds more than half. -/
theorem rne_int_le (x : ℚ) : (rne_int x : ℚ) ≤ x + 1 / 2 := by
  have h1 : (⌊x⌋ : ℚ) ≤ x := Int.floor_le x
  have h2 : x < ⌊x⌋ + 1 := Int.lt_floor_add_one x
  rw [rne_int]
  split_ifs with ha hb hc
  · linarith
  · push_cast
    linarith
  · linarith
  · push_cast
    linarith

/-- Round-to-nearest never subtracts more than half. -/
theorem le_rne_int (x : ℚ) : x - 1 / 2 ≤ (rne_int x : ℚ) := by
  have h1 : (⌊x⌋ : ℚ) ≤ x := Int.floor_le x
  have h2 : x < ⌊x⌋ + 1 := Int.lt_floor_add_one x
  rw [rne_int]
  split_ifs with ha hb hc
  · linarith
  · push_cast
    linarith
  · linarith
  · push_cast
    linarith

/-- Round-to-nearest of a nonnegative value is nonnegative. -/
theorem rne_int_nonneg (x : ℚ) (h : 0 ≤ x) : 0 ≤ rne_int x := by
  have := Int.floor_nonneg.mpr h
  rw [rne_int]
  split_ifs <;> omega

/-- Evaluation rule for `rne_int` when the fraction is below one half. -/
theorem rne_int_eq_down (x : ℚ) (m : ℤ) (hf : ⌊x⌋ = m) (h : x - m < 1 / 2) :
    rne_int x = m := by
  rw [rne_int, hf, if_pos h]

/-- Evaluation rule for `rne_int` when the fraction is above one half. -/
theorem rne_int_eq_up (x : ℚ) (m : ℤ) (hf : ⌊x⌋ = m) (h : 1 / 2 < x - m) :
    rne_int x = m + 1 := by
  rw [rne_int, hf, if_neg (by linarith), if_pos h]

/-- Binary32 rounding fixes zero. -/
theorem fl32_zero : fl32 0 = 0 := by
  rw [fl32, if_pos rfl]

/-- Binary32 rounding of a positive rational, unfolded. -/
theorem fl32_eq_pos (q : ℚ) (hq : 0 < q) :
    fl32 q = (rne_int (q / 2 ^ (Int.log 2 q - 23)) : ℚ) * 2 ^ (Int.log 2 q - 23) := by
  rw [fl32, if_neg hq.ne', abs_of_pos hq, if_pos hq, one_mul]

/-- The rounding granularity `2 ^ (log q - 23)` is at most `q / 2^23`. -/
theorem zpow_log_sub (q : ℚ) (hq : 0 < q) :
    (2:ℚ) ^ (Int.log 2 q - 23) * 2 ^ (23:ℕ) ≤ q := by
  have h2 : (2:ℚ) ^ (Int.log 2 q) ≤ q := by
    exact_mod_cast Int.zpow_log_le_self (b := 2) one_lt_two hq
  calc (2:ℚ) ^ (Int.log 2 q - 23) * 2 ^ (23:ℕ)
      = 2 ^ (Int.log 2 q) := by
        rw [← zpow_natCast (2:ℚ) 23, ← zpow_add₀ (two_ne_zero)]
        norm_num
    _ ≤ q := h2

/-- Binary32 rounding of a nonnegative value is nonnegative. -/
theorem fl32_nonneg (q : ℚ) (hq : 0 ≤ q) : 0 ≤ fl32 q := by
  rcases eq_or_lt_of_le hq with h | h
  · rw [← h, fl32_zero]
  · rw [fl32_eq_pos q h]
    have h2e : (0:ℚ) < 2 ^ (Int.log 2 q - 23) := by positivity
    have h0 : 0 ≤ rne_int (q / 2 ^ (Int.log 2 q - 23)) :=
      rne_int_nonneg _ (by positivity)
    have h0Q : (0:ℚ) ≤ (rne_int (q / 2 ^ (Int.log 2 q - 23)) : ℚ) := by
      exact_mod_cast h0
    exact mul_nonneg h0Q h2e.le

/-- Relative error bound of binary32 rounding, upper side: at most one part in
`2^24` above the exact value. -/
theorem fl32_le_add (q : ℚ) (hq : 0 ≤ q) : fl32 q ≤ q + q / 2 ^ 24 := by
  rcases eq_or_lt_of_le hq with h | h
  · rw [← h, fl32_zero]
    norm_num
  · rw [fl32_eq_pos q h]
    have h2e : (0:ℚ) < 2 ^ (Int.log 2 q - 23) := by positivity
    have key := mul_le_mul_of_nonneg_right
      (rne_int_le (q / 2 ^ (Int.log 2 q - 23))) h2e.le
    have hq2 : q / 2 ^ (Int.log 2 q - 23) * 2 ^ (Int.log 2 q - 23) = q :=
      div_mul_cancel₀ q h2e.ne'
    have expand : (q / 2 ^ (Int.log 2 q - 23) + 1 / 2) * 2 ^ (Int.log 2 q - 23)
        = q + 2 ^ (Int.log 2 q - 23) / 2 := by
      rw [add_mul, hq2]
      ring
    have hsmall : (2:ℚ) ^ (Int.log 2 q - 23) / 2 ≤ q / 2 ^ 24 := by
      rw [div_le_div_iff₀ (by norm_num) (by norm_num)]
      have hcube : (2:ℚ) ^ (Int.log 2 q - 23) * 2 ^ (24:ℕ)
          = 2 ^ (Int.log 2 q - 23) * 2 ^ (23:ℕ) * 2 := by
        rw [show ((2:ℚ) ^ (24:ℕ)) = 2 ^ (23:ℕ) * 2 by norm_num]
        ring
      rw [hcube]
      have := zpow_log_sub q h
      linarith
    linarith [key, expand, hsmall]

/-- Relative error bound of binary32 rounding, lower side: at most one part in
`2^24` below the exact value. -/
theorem sub_le_fl32 (q : ℚ) (hq : 0 ≤ q) : q - q / 2 ^ 24 ≤ fl32 q := by
  rcases eq_or_lt_of_le hq with h | h
  · rw [← h, fl32_zero]
    norm_num
  · rw [fl32_eq_pos q h]
    have h2e : (0:ℚ) < 2 ^ (Int.log 2 q - 23) := by positivity
    have key := mul_le_mul_of_nonneg_right
      (le_rne_int (q / 2 ^ (Int.log 2 q - 23))) h2e.le
    have hq2 : q / 2 ^ (Int.log 2 q - 23) * 2 ^ (Int.log 2 q - 23) = q :=
      div_mul_cancel₀ q h2e.ne'
    have expand : (q / 2 ^ (Int.log 2 q - 23) - 1 / 2) * 2 ^ (Int.log 2 q - 23)
        = q - 2 ^ (Int.log 2 q - 23) / 2 := by
      rw [sub_mul, hq2]
      ring
    have hsmall : (2:ℚ) ^ (Int.log 2 q - 23) / 2 ≤ q / 2 ^ 24 := by
      rw [div_le_div_iff₀ (by norm_num) (by norm_num)]
      have hcube : (2:ℚ) ^ (Int.log 2 q - 23) * 2 ^ (24:ℕ)
          = 2 ^ (Int.log 2 q - 23) * 2 ^ (23:ℕ) * 2 := by
        rw [show ((2:ℚ) ^ (24:ℕ)) = 2 ^ (23:ℕ) * 2 by norm_num]
        ring
      rw [hcube]
      have := zpow_log_sub q h
      linarith
    linarith [key, expand, hsmall]

/-- Concrete binary32 evaluation when the significand rounds down. -/
theorem fl32_eval_down (q x : ℚ) (L m : ℤ) (hq : 0 < q)
    (h1 : (2:ℚ) ^ L ≤ q) (h2 : q < (2:ℚ) ^ (L + 1))
    (hx : q / 2 ^ (L - 23) = x) (hf : ⌊x⌋ = m) (hlt : x - m < 1 / 2) :
    fl32 q = (m : ℚ) * 2 ^ (L - 23) := by
  rw [fl32_eq_pos q hq, int_log2_eq hq h1 h2, hx, rne_int_eq_down x m hf hlt]

/-- Concrete binary32 evaluation when the significand rounds up. -/
theorem fl32_eval_up (q x : ℚ) (L m : ℤ) (hq : 0 < q)
    (h1 : (2:ℚ) ^ L ≤ q) (h2 : q < (2:ℚ) ^ (L + 1))
    (hx : q / 2 ^ (L - 23) = x) (hf : ⌊x⌋ = m) (hgt : 1 / 2 < x - m) :
    fl32 q = ((m + 1 : ℤ) : ℚ) * 2 ^ (L - 23) := by
  rw [fl32_eq_pos q hq, int_log2_eq hq h1 h2, hx, rne_int_eq_up x m hf hgt]

/-- Claim C4 (counterexample): under exact IEEE binary32 semantics a 69×35
source is binding on the width axis, yet `fl(2460/69) = 9346003/2^18` rounds
below the exact quotient, `fl(69 * fl(2460/69)) = 10076159/2^12 = 2459.9997…`
truncates to 2459 ≠ 2460, and the height comes out 1247 ≠ 1280 — the scaled
size equals the content box on neither axis, refuting the binding-axis
equality of the claim. -/
theorem C4_cex :
    scaled_width32 IMAGE_BOX_WIDTH IMAGE_BOX_HEIGHT 69 35 = 2459 ∧
    scaled_height32 IMAGE_BOX_WIDTH IMAGE_BOX_HEIGHT 69 35 = 1247 ∧
    ¬ (scaled_width32 IMAGE_BOX_WIDTH IMAGE_BOX_HEIGHT 69 35 = IMAGE_BOX_WIDTH ∨
      scaled_height32 IMAGE_BOX_WIDTH IMAGE_BOX_HEIGHT 69 35 = IMAGE_BOX_HEIGHT) := by
  have e1 : IMAGE_BOX_WIDTH = 2460 := by decide
  have e2 : IMAGE_BOX_HEIGHT = 1280 := by decide
  rw [e1, e2]
  have hsf : scale_factor32 2460 1280 69 35 = 9346003 / 262144 := by
    have hA : f32_div ((2460:Nat) : ℚ) ((69:Nat) : ℚ) = 9346003 / 262144 := by
      rw [f32_div, show ((2460:Nat):ℚ) / ((69:Nat):ℚ) = 2460 / 69 by norm_num]
      rw [fl32_eval_down (2460/69) (644874240/69) 5 9346003 (by norm_num)
        (by norm_num) (by norm_num) (by norm_num)
        (by norm_num [Int.floor_eq_iff]) (by norm_num)]
      norm_num
    have hB : f32_div ((1280:Nat) : ℚ) ((35:Nat) : ℚ) = 9586981 / 262144 := by
      rw [f32_div, show ((1280:Nat):ℚ) / ((35:Nat):ℚ) = 1280 / 35 by norm_num]
      rw [fl32_eval_up (1280/35) (335544320/35) 5 9586980 (by norm_num)
        (by norm_num) (by norm_num) (by norm_num)
        (by norm_num [Int.floor_eq_iff]) (by norm_num)]
      norm_num
    rw [scale_factor32, hA, hB, min_eq_left (by norm_num)]
  have hW : scaled_width32 2460 1280 69 35 = 2459 := by
    rw [scaled_width32, hsf]
    have hmul : f32_mul ((69:Nat) : ℚ) (9346003 / 262144) = 10076159 / 4096 := by
      rw [f32_mul,
        show ((69:Nat):ℚ) * (9346003 / 262144) = 644874207 / 262144 by norm_num]
      rw [fl32_eval_down (644874207/262144) (644874207/64) 11 10076159
        (by norm_num) (by norm_num) (by norm_num) (by norm_num)
        (by norm_num [Int.floor_eq_iff]) (by norm_num)]
      norm_num
    rw [hmul, f32_as_u32, show ⌊(10076159:ℚ)/4096⌋ = 2459 by
      norm_num [Int.floor_eq_iff]]
    decide
  have hH : scaled_height32 2460 1280 69 35 = 1247 := by
    rw [scaled_height32, hsf]
    have hmul : f32_mul ((35:Nat) : ℚ) (9346003 / 262144) = 10222191 / 8192 := by
      rw [f32_mul,
        show ((35:Nat):ℚ) * (9346003 / 262144) = 327110105 / 262144 by norm_num]
      rw [fl32_eval_up (327110105/262144) (327110105/32) 10 10222190
        (by norm_num) (by norm_num) (by norm_num) (by norm_num)
        (by norm_num [Int.floor_eq_iff]) (by norm_num)]
      norm_num
    rw [hmul, f32_as_u32, show ⌊(10222191:ℚ)/8192⌋ = 1247 by
      norm_num [Int.floor_eq_iff]]
    decide
  exact ⟨hW, hH, by rw [hW, hH]; decide⟩

/-- Under binary32 rounding the truncated scaled dimension never exceeds the
box: the accumulated relative error (one part in `2^24` per operation) is
below one pixel for boxes up to `2^22`. -/
theorem scaled32_le (box d : Nat) (s : ℚ) (hd : 0 < d) (hbox : box ≤ 2 ^ 22)
    (hs0 : 0 ≤ s) (hsU : s ≤ f32_div (box : ℚ) (d : ℚ)) :
    f32_as_u32 (f32_mul (d : ℚ) s) ≤ box := by
  rw [f32_div] at hsU
  have hd' : ((d:ℚ)) ≠ 0 := Nat.cast_ne_zero.mpr hd.ne'
  have ha0 : (0:ℚ) ≤ (box : ℚ) / (d : ℚ) := by positivity
  have hB22 : ((box : ℚ)) ≤ 2 ^ 22 := by exact_mod_cast hbox
  have hda : (d:ℚ) * ((box : ℚ) / (d : ℚ)) = (box : ℚ) := by field_simp
  have hfa : fl32 ((box : ℚ) / (d : ℚ))
      ≤ (box : ℚ) / (d : ℚ) + ((box : ℚ) / (d : ℚ)) / 2 ^ 24 :=
    fl32_le_add _ ha0
  have hp0 : (0:ℚ) ≤ (d:ℚ) * s := mul_nonneg (by positivity) hs0
  have hpU : (d:ℚ) * s ≤ (box : ℚ) + (box : ℚ) / 2 ^ 24 := by
    have h1 : (d:ℚ) * s
        ≤ (d:ℚ) * ((box : ℚ) / (d : ℚ) + ((box : ℚ) / (d : ℚ)) / 2 ^ 24) :=
      mul_le_mul_of_nonneg_left (hsU.trans hfa) (by positivity)
    calc (d:ℚ) * s
        ≤ (d:ℚ) * ((box : ℚ) / (d : ℚ) + ((box : ℚ) / (d : ℚ)) / 2 ^ 24) := h1
      _ = (d:ℚ) * ((box : ℚ) / (d : ℚ))
          + ((d:ℚ) * ((box : ℚ) / (d : ℚ))) / 2 ^ 24 := by ring
      _ = (box : ℚ) + (box : ℚ) / 2 ^ 24 := by rw [hda]
  have hfp : fl32 ((d:ℚ) * s) ≤ (d:ℚ) * s + ((d:ℚ) * s) / 2 ^ 24 :=
    fl32_le_add _ hp0
  have h3 : (box : ℚ) / 2 ^ 24 ≤ 1 / 4 := by
    rw [div_le_div_iff₀ (by norm_num) (by norm_num)]
    have h24 : (2:ℚ) ^ 22 * 4 ≤ 1 * 2 ^ 24 := by norm_num
    linarith
  have h4 : ((d:ℚ) * s) / 2 ^ 24 ≤ ((box : ℚ) + 1 / 4) / 2 ^ 24 := by
    gcongr
    linarith
  have h5 : ((box : ℚ) + 1 / 4) / 2 ^ 24 ≤ ((2:ℚ) ^ 22 + 1 / 4) / 2 ^ 24 := by
    gcongr
  have h6 : ((2:ℚ) ^ 22 + 1 / 4) / 2 ^ 24 ≤ 1 / 2 := by norm_num
  have hlt : fl32 ((d:ℚ) * s) < (box : ℚ) + 1 := by linarith
  have hfloor : ⌊fl32 ((d:ℚ) * s)⌋ < (box : ℤ) + 1 := by
    rw [Int.floor_lt]
    push_cast
    linarith
  rw [f32_mul, f32_as_u32]
  omega

/-- Under binary32 rounding the truncated scaled dimension on the binding axis
stays within one pixel of the box for boxes up to `2^22`:  the two rounding
errors lose at most half a pixel below the exact value `box`. -/
theorem scaled32_lower (box d : Nat) (s : ℚ) (hd : 0 < d) (hbox : box ≤ 2 ^ 22)
    (hs : s = f32_div (box : ℚ) (d : ℚ)) :
    box - 1 ≤ f32_as_u32 (f32_mul (d : ℚ) s) := by
  rw [f32_div] at hs
  have hd' : ((d:ℚ)) ≠ 0 := Nat.cast_ne_zero.mpr hd.ne'
  have ha0 : (0:ℚ) ≤ (box : ℚ) / (d : ℚ) := by positivity
  have hB22 : ((box : ℚ)) ≤ 2 ^ 22 := by exact_mod_cast hbox
  have hda : (d:ℚ) * ((box : ℚ) / (d : ℚ)) = (box : ℚ) := by field_simp
  have hfa : fl32 ((box : ℚ) / (d : ℚ))
      ≤ (box : ℚ) / (d : ℚ) + ((box : ℚ) / (d : ℚ)) / 2 ^ 24 :=
    fl32_le_add _ ha0
  have hfaL : (box : ℚ) / (d : ℚ) - ((box : ℚ) / (d : ℚ)) / 2 ^ 24
      ≤ fl32 ((box : ℚ) / (d : ℚ)) := sub_le_fl32 _ ha0
  have hs0 : 0 ≤ s := hs ▸ fl32_nonneg _ ha0
  have hp0 : (0:ℚ) ≤ (d:ℚ) * s := mul_nonneg (by positivity) hs0
  have hpU : (d:ℚ) * s ≤ (box : ℚ) + (box : ℚ) / 2 ^ 24 := by
    have h1 : (d:ℚ) * s
        ≤ (d:ℚ) * ((box : ℚ) / (d : ℚ) + ((box : ℚ) / (d : ℚ)) / 2 ^ 24) :=
      mul_le_mul_of_nonneg_left (hs.le.trans hfa) (by positivity)
    calc (d:ℚ) * s
        ≤ (d:ℚ) * ((box : ℚ) / (d : ℚ) + ((box : ℚ) / (d : ℚ)) / 2 ^ 24) := h1
      _ = (d:ℚ) * ((box : ℚ) / (d : ℚ))
          + ((d:ℚ) * ((box : ℚ) / (d : ℚ))) / 2 ^ 24 := by ring
      _ = (box : ℚ) + (box : ℚ) / 2 ^ 24 := by rw [hda]
  have hpL : (box : ℚ) - (box : ℚ) / 2 ^ 24 ≤ (d:ℚ) * s := by
    have h1 : (d:ℚ) * ((box : ℚ) / (d : ℚ) - ((box : ℚ) / (d : ℚ)) / 2 ^ 24)
        ≤ (d:ℚ) * s := by
      rw [hs]
      exact mul_le_mul_of_nonneg_left hfaL (by positivity)
    calc (box : ℚ) - (box : ℚ) / 2 ^ 24
        = (d:ℚ) * ((box : ℚ) / (d : ℚ))
          - ((d:ℚ) * ((box : ℚ) / (d : ℚ))) / 2 ^ 24 := by rw [hda]
      _ = (d:ℚ) * ((box : ℚ) / (d : ℚ) - ((box : ℚ) / (d : ℚ)) / 2 ^ 24) := by
          ring
      _ ≤ (d:ℚ) * s := h1
  have hfpL : (d:ℚ) * s - ((d:ℚ) * s) / 2 ^ 24 ≤ fl32 ((d:ℚ) * s) :=
    sub_le_fl32 _ hp0
  have h3 : (box : ℚ) / 2 ^ 24 ≤ 1 / 4 := by
    rw [div_le_div_iff₀ (by norm_num) (by norm_num)]
    have h24 : (2:ℚ) ^ 22 * 4 ≤ 1 * 2 ^ 24 := by norm_num
    linarith
  have h4 : ((d:ℚ) * s) / 2 ^ 24 ≤ ((box : ℚ) + 1 / 4) / 2 ^ 24 := by
    gcongr
    linarith
  have h5 : ((box : ℚ) + 1 / 4) / 2 ^ 24 ≤ ((2:ℚ) ^ 22 + 1 / 4) / 2 ^ 24 := by
    gcongr
  have h6 : ((2:ℚ) ^ 22 + 1 / 4) / 2 ^ 24 ≤ 1 / 2 := by norm_num
  have hgt : (box : ℚ) - 1 < fl32 ((d:ℚ) * s) := by linarith
  have hfloor : (box : ℤ) - 1 ≤ ⌊fl32 ((d:ℚ) * s)⌋ := by
    rw [Int.le_floor]
    push_cast
    linarith
  rw [f32_mul, f32_as_u32]
  omega

/-- Claim C4 (amended): under exact IEEE binary32 semantics the scaled
dimensions still satisfy the fit bound `scaledW ≤ BoxW` and `scaledH ≤ BoxH`,
and on at least one axis the scaled dimension is within one pixel of the box
(`Box - 1 ≤ scaled`); exact equality on the binding axis can be lost to `f32`
rounding (see the 69×35 counterexample). -/
theorem C4_fit32 (boxW boxH ow oh : Nat) (how : 0 < ow) (hoh : 0 < oh)
    (hbw : boxW ≤ 2 ^ 22) (hbh : boxH ≤ 2 ^ 22) :
    scaled_width32 boxW boxH ow oh ≤ boxW ∧
    scaled_height32 boxW boxH ow oh ≤ boxH ∧
      (boxW - 1 ≤ scaled_width32 boxW boxH ow oh ∨
        boxH - 1 ≤ scaled_height32 boxW boxH ow oh) := by
  have hA0 : 0 ≤ f32_div (boxW : ℚ) (ow : ℚ) := by
    rw [f32_div]
    exact fl32_nonneg _ (by positivity)
  have hB0 : 0 ≤ f32_div (boxH : ℚ) (oh : ℚ) := by
    rw [f32_div]
    exact fl32_nonneg _ (by positivity)
  have hs0 : 0 ≤ scale_factor32 boxW boxH ow oh := by
    rw [scale_factor32]
    exact le_min hA0 hB0
  have hle1 : scale_factor32 boxW boxH ow oh ≤ f32_div (boxW : ℚ) (ow : ℚ) := by
    rw [scale_factor32]
    exact min_le_left _ _
  have hle2 : scale_factor32 boxW boxH ow oh ≤ f32_div (boxH : ℚ) (oh : ℚ) := by
    rw [scale_factor32]
    exact min_le_right _ _
  refine ⟨?_, ?_, ?_⟩
  · rw [scaled_width32]
    exact scaled32_le boxW ow _ how hbw hs0 hle1
  · rw [scaled_height32]
    exact scaled32_le boxH oh _ hoh hbh hs0 hle2
  · rcases le_total (f32_div (boxW : ℚ) (ow : ℚ)) (f32_div (boxH : ℚ) (oh : ℚ))
      with hc | hc
    · left
      rw [scaled_width32]
      exact scaled32_lower boxW ow _ how hbw
        (by rw [scale_factor32]; exact min_eq_left hc)
    · right
      rw [scaled_height32]
      exact scaled32_lower boxH oh _ hoh hbh
        (by rw [scale_factor32]; exact min_eq_right hc)

/-- Witness for C4 (amended) at the 4000×3000 example source. -/
theorem C4_fit32_witness :
    scaled_width32 IMAGE_BOX_WIDTH IMAGE_BOX_HEIGHT 4000 3000 ≤ IMAGE_BOX_WIDTH ∧
    scaled_height32 IMAGE_BOX_WIDTH IMAGE_BOX_HEIGHT 4000 3000 ≤ IMAGE_BOX_HEIGHT ∧
      (IMAGE_BOX_WIDTH - 1
          ≤ scaled_width32 IMAGE_BOX_WIDTH IMAGE_BOX_HEIGHT 4000 3000 ∨
        IMAGE_BOX_HEIGHT - 1
          ≤ scaled_height32 IMAGE_BOX_WIDTH IMAGE_BOX_HEIGHT 4000 3000) :=
  C4_fit32 IMAGE_BOX_WIDTH IMAGE_BOX_HEIGHT 4000 3000 (by decide) (by decide)
    (by decide) (by decide)
